import Mathlib

/-
Verification of the i18n translation compiler (src/lib/i18n-compile.ts).

The embedding models JavaScript objects whose entries are iterated with
Object.keys as association lists in insertion order: assigning to an
existing key keeps its position, assigning to a fresh key appends it.
Asynchronous file system effects are modelled by explicit function
parameters returning Except values; the operations issued by compileI18n
are collected into an ordered trace (the await structure of the source
sequences the directory removal before the batch of writes, the batch
before the unit module write, and that before the declaration write; the
concurrent writes inside one Promise.all batch are linearised in array
order, which is sound for the properties proved here because they are
invariant under permuting the writes inside a batch).
-/

set_option autoImplicit false

universe u v

/-- A JavaScript error value; only its code is inspected by the compiler. -/
structure JsError where
  code : String
deriving DecidableEq

/-- A JS object entry list; named TranslationMap in the source. -/
abbrev TranslationMap := List (String × String)

/-- JS property assignment: overwrite the first entry with this key in
place, or append a new entry. -/
def setKey {α : Type u} : List (String × α) → String → α → List (String × α)
  | [], k, v => [(k, v)]
  | (k₁, v₁) :: rest, k, v =>
    if k₁ = k then (k₁, v) :: rest else (k₁, v₁) :: setKey rest k v

/-- JS property read: the value of the first entry with this key. -/
def lookupKey {α : Type u} : List (String × α) → String → Option α
  | [], _ => none
  | (k₁, v₁) :: rest, key => if key = k₁ then some v₁ else lookupKey rest key

/-- Object.keys: the keys in insertion order. -/
def objKeys {α : Type u} (m : List (String × α)) : List String :=
  m.map Prod.fst

/-- Object.assign(acc, data): every entry of data is assigned onto acc in
entry order. -/
def assign (acc data : TranslationMap) : TranslationMap :=
  data.foldl (fun m kv => setKey m kv.1 kv.2) acc

/-- First-some choice, the value semantics of overwriting reads. -/
def jsOr {α : Type u} : Option α → Option α → Option α
  | some v, _ => some v
  | none, b => b

/-- A single loaded translation file (interface Translation). -/
structure Translation where
  locale : String
  data : TranslationMap
deriving DecidableEq

/-- All loaded translations matching one target locale
(interface GroupedTranslation). -/
structure GroupedTranslation where
  locale : String
  translations : List Translation
deriving DecidableEq

/-- The merge in compileI18n:
translations.reverse().reduce((acc, t) => Object.assign(acc, t.data), ()). -/
def mergeGroup (translations : List Translation) : TranslationMap :=
  translations.reverse.foldl (fun acc t => assign acc t.data) []

/- Lemmas about the JS object model. -/

theorem lookupKey_setKey {α : Type u} (m : List (String × α)) (k : String) (v : α)
    (key : String) :
    lookupKey (setKey m k v) key = if key = k then some v else lookupKey m key := by
  induction m with
  | nil => simp [setKey, lookupKey]
  | cons hd tl ih =>
    obtain ⟨k₁, v₁⟩ := hd
    by_cases h₁ : k₁ = k
    · subst h₁
      by_cases h₂ : key = k₁ <;> simp [setKey, lookupKey, h₂]
    · by_cases h₂ : key = k₁
      · subst h₂
        simp [setKey, lookupKey, h₁, Ne.symm h₁]
      · simp [setKey, lookupKey, h₁, h₂, ih]

theorem lookupKey_eq_none_of_not_mem {α : Type u} (m : List (String × α)) (key : String)
    (h : key ∉ objKeys m) : lookupKey m key = none := by
  induction m with
  | nil => simp [lookupKey]
  | cons hd tl ih =>
    obtain ⟨k₁, v₁⟩ := hd
    simp only [objKeys, List.map_cons, List.mem_cons, not_or] at h
    simp [lookupKey, h.1, ih (by simpa [objKeys] using h.2)]

theorem lookupKey_assign (acc data : TranslationMap) (key : String)
    (h : (objKeys data).Nodup) :
    lookupKey (assign acc data) key = jsOr (lookupKey data key) (lookupKey acc key) := by
  induction data generalizing acc with
  | nil => simp [assign, lookupKey, jsOr]
  | cons hd tl ih =>
    obtain ⟨k₁, v₁⟩ := hd
    simp only [objKeys, List.map_cons, List.nodup_cons] at h
    have step : assign acc ((k₁, v₁) :: tl) = assign (setKey acc k₁ v₁) tl := by
      simp [assign]
    rw [step, ih (setKey acc k₁ v₁) h.2]
    by_cases hk : key = k₁
    · subst hk
      have : lookupKey tl key = none :=
        lookupKey_eq_none_of_not_mem tl key (by simpa [objKeys] using h.1)
      simp [this, lookupKey, lookupKey_setKey, jsOr]
    · simp [lookupKey, lookupKey_setKey, hk, jsOr]

theorem mergeGroup_cons (t : Translation) (ts : List Translation) :
    mergeGroup (t :: ts) = assign (mergeGroup ts) t.data := by
  simp [mergeGroup, List.foldl_append]

/-- Keys set by per-entry assignment starting from acc. -/
theorem objKeys_setKey_subset {α : Type u} (m : List (String × α)) (k : String) (v : α) :
    ∀ key ∈ objKeys (setKey m k v), key = k ∨ key ∈ objKeys m := by
  induction m with
  | nil => simp [setKey, objKeys]
  | cons hd tl ih =>
    obtain ⟨k₁, v₁⟩ := hd
    intro key hk
    by_cases h₁ : k₁ = k
    · subst h₁
      simp [setKey, objKeys] at hk ⊢
      tauto
    · simp only [setKey, if_neg h₁, objKeys, List.map_cons, List.mem_cons] at hk
      rcases hk with hk | hk
      · exact Or.inr (by simp [objKeys, hk])
      · rcases ih key hk with h | h
        · exact Or.inl h
        · exact Or.inr (by simp [objKeys] at h ⊢; exact Or.inr h)

/- The merge: first-discovered source wins. -/

/-- Example source A, discovered before B, defining the colliding key. -/
def exSourceA : Translation :=
  ⟨"en", [("greeting", "hi")]⟩

/-- Example source B, discovered after A, defining the colliding key. -/
def exSourceB : Translation :=
  ⟨"en", [("greeting", "hello")]⟩

/-- C1 counterexample: sources A (discovered first, greeting = hi) and
B (discovered later, greeting = hello) both match the locale, yet the
merged mapping produced by reverse-then-reduce of compileI18n holds the value of A,
not of B: the claim that the last-discovered source wins key
collisions is false on the code. -/
theorem mergeGroup_last_wins_counterexample :
    lookupKey exSourceA.data "greeting" = some "hi" ∧
    lookupKey exSourceB.data "greeting" = some "hello" ∧
    lookupKey (mergeGroup [exSourceA, exSourceB]) "greeting" = some "hi" ∧
    lookupKey (mergeGroup [exSourceA, exSourceB]) "greeting" ≠ some "hello" := by
  refine ⟨rfl, rfl, rfl, ?_⟩
  decide

/-- C1 (amended): the merged data mapping for a group resolves every key
to the value of the earliest-discovered source defining it — on any key
collision the first-discovered source wins, so the local project, pushed
after all dependency sources, is outranked by every dependency that
defines the same key. -/
theorem mergeGroup_first_discovered_wins (ts : List Translation) (key : String)
    (h : ∀ t ∈ ts, (objKeys t.data).Nodup) :
    lookupKey (mergeGroup ts) key = ts.findSome? (fun t => lookupKey t.data key) := by
  induction ts with
  | nil => simp [mergeGroup, lookupKey, List.findSome?]
  | cons t ts ih =>
    rw [mergeGroup_cons, lookupKey_assign _ _ _ (h t (by simp)),
      ih (fun u hu => h u (by simp [hu]))]
    cases hk : lookupKey t.data key <;> simp [jsOr, List.findSome?_cons, hk]

/-- C1 witness: the amended theorem evaluated on the two example sources. -/
theorem mergeGroup_first_discovered_wins_witness :
    (∀ t ∈ [exSourceA, exSourceB], (objKeys t.data).Nodup) ∧
    lookupKey (mergeGroup [exSourceA, exSourceB]) "greeting" =
      [exSourceA, exSourceB].findSome? (fun t => lookupKey t.data "greeting") :=
  ⟨by decide, mergeGroup_first_discovered_wins [exSourceA, exSourceB] "greeting" (by decide)⟩

/- The lodash camelCase model (external library: modelled from its
documented behaviour on ASCII identifier inputs — words are delimited by
non-alphanumeric characters and by a lower-case-or-digit to upper-case
boundary or an upper-to-upper-followed-by-lower boundary; the first word
is lower-cased whole, the following words are capitalised). -/

/-- A character that belongs to a word for the camelCase splitter. -/
def isWordChar (c : Char) : Bool :=
  c.isAlpha || c.isDigit

/-- Close the current word accumulator (held reversed) onto the word list. -/
def flushWord (acc : List Char) (ws : List (List Char)) : List (List Char) :=
  if acc.isEmpty then ws else acc.reverse :: ws

/-- Word splitter: walks the characters with the previous word character,
the current reversed word accumulator and the reversed word list. -/
def wordsLoop : List Char → Option Char → List Char → List (List Char) → List (List Char)
  | [], _, acc, ws => (flushWord acc ws).reverse
  | c :: rest, prev, acc, ws =>
    if isWordChar c then
      let boundary :=
        match prev with
        | none => false
        | some p =>
          ((p.isLower || p.isDigit) && c.isUpper)
          || (p.isUpper && c.isUpper &&
              (match rest.head? with
               | some n => n.isLower && n.isAlpha
               | none => false))
      if boundary then wordsLoop rest (some c) [c] (flushWord acc ws)
      else wordsLoop rest (some c) (c :: acc) ws
    else wordsLoop rest none [] (flushWord acc ws)

/-- A capitalised word: first character upper-cased, the rest lower-cased. -/
def capitalizeWord : List Char → List Char
  | [] => []
  | c :: cs => c.toUpper :: cs.map Char.toLower

/-- lodash camelCase on ASCII identifiers: first word lower-cased, the
following words capitalised, all joined. -/
def camelCase (s : String) : String :=
  match wordsLoop s.toList none [] [] with
  | [] => ""
  | w :: ws => String.mk (w.map Char.toLower ++ (ws.map capitalizeWord).flatten)

/-- camelCaseKeys from the source: rebuild the object with every key
camel-cased, assigning entry by entry. -/
def camelCaseKeys (data : TranslationMap) : TranslationMap :=
  data.foldl (fun acc kv => setKey acc (camelCase kv.1) kv.2) []

/- JS string split and template splicing used for the locale metadata. -/

/-- Character-level split of a character list at every separator
occurrence (JS String.prototype.split with a one-character separator). -/
def splitListChar (sep : Char) : List Char → List (List Char)
  | [] => [[]]
  | c :: rest =>
    match splitListChar sep rest with
    | [] => if c = sep then [[], []] else [[c]]
    | hd :: tl => if c = sep then [] :: hd :: tl else (c :: hd) :: tl

/-- JS locale.split(sep) for a one-character separator. -/
def jsSplit (sep : Char) (s : String) : List String :=
  (splitListChar sep s.toList).map (fun cs => String.mk cs)

/-- JS template-literal splicing of a possibly undefined value: splicing
undefined produces the text undefined. -/
def jsTemplate : Option String → String
  | some s => s
  | none => "undefined"

/-- The language part of a locale tag: locale.split(sep)[0]. -/
def languageOf (locale : String) : String :=
  jsTemplate ((jsSplit (Char.ofNat 95) locale).get? 0)

/-- Modelled from the spec: toIntlLocale (src/lib/intl.ts, not under
src/) converts a tag such as de_DE into the Intl form de-DE. -/
def toIntlLocale (locale : String) : String :=
  String.intercalate "-" (jsSplit (Char.ofNat 95) locale)

/-- Modelled from the spec: isMatchingLocaleOrLanguage (src/lib/i18n.ts,
not under src/) holds when the locale tag of a translation matches the target
locale exactly or is its language fallback. -/
def isMatchingLocaleOrLanguage (translationLocale targetLocale : String) : Bool :=
  translationLocale == targetLocale || translationLocale == languageOf targetLocale

/-- Modelled from the spec: concatLanguages (src/lib/i18n.ts, not under
src/) expands a declared locale list into the locale-and-language-fallback
set, so de_DE also induces a read for de. -/
def concatLanguages (locales : List String) : List String :=
  locales ++ (locales.map languageOf).filter (fun l => !(locales.contains l))

/- The translation loader. -/

/-- Node path.join restricted to plain relative segments: empty segments
are dropped, the rest are joined with a slash. -/
def joinPath (segments : List String) : String :=
  String.intercalate "/" (segments.filter (fun s => s ≠ ""))

/-- The read path of readTranslation:
join(cwd, dir, feature, locale + .properties). -/
def translationPath (cwd dir feature locale : String) : String :=
  joinPath [cwd, dir, feature, locale ++ ".properties"]

/-- readTranslation: read the properties file, parse it, turn a missing
file into an empty object, rethrow every other error, camel-case the keys
and pair them with the locale. The file system and the properties parsing
(external library) are explicit function parameters. -/
def readTranslation (fs : String → Except JsError String)
    (parseProps : String → Except JsError TranslationMap)
    (cwd dir locale feature : String) : Except JsError Translation :=
  let readPath := translationPath cwd dir feature locale
  let parsed : Except JsError TranslationMap :=
    match fs readPath with
    | Except.ok contents => parseProps contents
    | Except.error e => Except.error e
  let caught : Except JsError TranslationMap :=
    match parsed with
    | Except.ok m => Except.ok m
    | Except.error e =>
      if e.code = "ENOENT" then Except.ok [] else Except.error e
  match caught with
  | Except.ok m => Except.ok { locale := locale, data := camelCaseKeys m }
  | Except.error e => Except.error e

/-- Promise.all over a list of fallible reads or writes: values in array
order, the first rejection aborts the batch. -/
def mapE {α : Type u} {β : Type v} (f : α → Except JsError β) : List α → Except JsError (List β)
  | [] => Except.ok []
  | a :: l =>
    match f a with
    | Except.error e => Except.error e
    | Except.ok b =>
      match mapE f l with
      | Except.error e => Except.error e
      | Except.ok bs => Except.ok (b :: bs)

theorem mapE_error_of_mem {α : Type u} {β : Type v} (f : α → Except JsError β)
    (l : List α) (a : α) (e : JsError) (ha : a ∈ l) (he : f a = Except.error e) :
    ∃ e₂, mapE f l = Except.error e₂ := by
  induction l with
  | nil => cases ha
  | cons hd tl ih =>
    rcases List.mem_cons.mp ha with h | h
    · subst h
      exact ⟨e, by simp [mapE, he]⟩
    · cases hf : f hd with
      | error e₁ => exact ⟨e₁, by simp [mapE, hf]⟩
      | ok b =>
        obtain ⟨e₂, h₂⟩ := ih h
        exact ⟨e₂, by simp [mapE, hf, h₂]⟩

/- The message syntax tree, as read by the compiler: it inspects only
element.type, element.id, element.format.type and the selectors of a
options of a select format, so the nested sub-message of a select option is
elided. -/

/-- One option of a select format; the compiler reads only its selector. -/
structure SelectOption where
  selector : String
deriving DecidableEq

/-- The format attached to a placeholder element: the compiler
distinguishes pluralFormat, selectFormat and everything else. -/
inductive ElementFormat where
  | pluralFormat
  | selectFormat (options : List SelectOption)
  | otherFormat
deriving DecidableEq

/-- One element of a parsed message: type is argumentElement for a
placeholder and messageTextElement for literal text. -/
structure Element where
  type : String
  id : String
  format : Option ElementFormat
deriving DecidableEq

/-- A parsed message (the intl-messageformat-parser output shape). -/
structure Ast where
  elements : List Element
deriving DecidableEq

/-- The parsed-syntax-tree map of one locale (interface AstMap). -/
abbrev AstMap := List (String × Ast)

/-- The merged, parsed result per locale (interface ParsedTranslation). -/
structure ParsedTranslation where
  locale : String
  data : TranslationMap
  asts : AstMap
deriving DecidableEq

/-- hasArguments: a present syntax tree holding at least one placeholder
element (the JS truthiness chain over ast, elements, length and the filter
count). -/
def hasArguments : Option Ast → Bool
  | none => false
  | some ast => !(ast.elements.filter (fun e => e.type == "argumentElement")).isEmpty

/-- A single quote character, used to quote literal selector types. -/
def squote : String :=
  String.mk [Char.ofNat 39]

/-- The inferred type of one placeholder element: number for a plural
format, the union of quoted selectors with string for the other branch
for a select format, string otherwise. -/
def argType (e : Element) : String :=
  match e.format with
  | some ElementFormat.pluralFormat => "number"
  | some (ElementFormat.selectFormat options) =>
    String.intercalate " | "
      (options.map (fun o =>
        if o.selector = "other" then "string" else squote ++ o.selector ++ squote))
  | _ => "string"

/-- The key/type pairs before de-duplication: placeholder elements in
element order, each mapped to its inferred type. -/
def argPairs (ast : Ast) : List (String × String) :=
  (ast.elements.filter (fun e => e.type == "argumentElement")).map
    (fun e => (e.id, argType e))

/-- lodash uniqBy keyed on the first pair component: the first occurrence of each
key is kept, in order; seen carries the keys already emitted. -/
def uniqByAux : List String → List (String × String) → List (String × String)
  | _, [] => []
  | seen, p :: rest =>
    if p.1 ∈ seen then uniqByAux seen rest
    else p :: uniqByAux (p.1 :: seen) rest

/-- The de-duplicated key/type pairs of getArgumentTypes. -/
def keyTypePairs (ast : Ast) : List (String × String) :=
  uniqByAux [] (argPairs ast)

/-- getArgumentTypes: the rendered argument object type, empty when the
message has no placeholder. -/
def getArgumentTypes (ast : Ast) : String :=
  let pairs := keyTypePairs ast
  if pairs.length ≠ 0 then
    "\x7b " ++ String.intercalate ", " (pairs.map (fun p => p.1 ++ ": " ++ p.2)) ++ " \x7d"
  else ""

/-- getArgument: the rendered parameter, typed when requested. -/
def getArgument (ast : Ast) (hasTypes : Bool) : String :=
  if hasArguments (some ast) then
    if hasTypes then "data" ++ getArgumentTypes ast else "data"
  else ""

/- The reading of argument-type inference in the specification, written
from its words for comparison with getArgumentTypes: placeholder
elements are first de-duplicated by name, then each surviving placeholder
is mapped to its inferred type. -/

/-- Written from the spec: the inferred type of a placeholder — number if
it is a plural-format placeholder, a union of quoted literal selectors
(plus string for the other branch) if it is a select-format placeholder,
else string. -/
def specPlaceholderType (e : Element) : String :=
  match e.format with
  | some ElementFormat.pluralFormat => "number"
  | some (ElementFormat.selectFormat options) =>
    String.intercalate " | "
      (options.map (fun o =>
        if o.selector = "other" then "string" else squote ++ o.selector ++ squote))
  | _ => "string"

/-- Written from the spec: de-duplication of placeholder elements by
name, keeping the first occurrence of each name. -/
def uniqElemsAux : List String → List Element → List Element
  | _, [] => []
  | seen, e :: rest =>
    if e.id ∈ seen then uniqElemsAux seen rest
    else e :: uniqElemsAux (e.id :: seen) rest

/-- Written from the spec: the rendered argument object type — the
placeholder elements de-duplicated by name, each mapped to its inferred
type. -/
def specArgumentTypes (ast : Ast) : String :=
  let placeholders :=
    uniqElemsAux [] (ast.elements.filter (fun e => e.type == "argumentElement"))
  let pairs := placeholders.map (fun e => (e.id, specPlaceholderType e))
  if pairs.length ≠ 0 then
    "\x7b " ++ String.intercalate ", " (pairs.map (fun p => p.1 ++ ": " ++ p.2)) ++ " \x7d"
  else ""

/- Emission: the generated modules are modelled structurally; each export
is a key paired with the body the writer templates out for it. -/

/-- The fixed marker string returned by the formatter of a key with no
syntax tree. -/
def missingKeyMessage (key : String) : String :=
  "Missing key \"" ++ key ++ "\"."

/-- The body of one generated formatter: either the fixed missing-key
return, or the memoised IntlMessageFormat formatting of the stored tree
(takesData records whether the emitted function takes the data
parameter). -/
inductive FormatterBody where
  | missingKey (key : String)
  | format (ast : Ast) (takesData : Bool)
deriving DecidableEq

/-- The body the per-key template emits: the formatting body when the
syntax tree of the locale for the key is present, the missing-key body when it
is absent. -/
def emitBody (asts : AstMap) (key : String) : FormatterBody :=
  match lookupKey asts key with
  | some ast => FormatterBody.format ast (hasArguments (some ast))
  | none => FormatterBody.missingKey key

/-- The runtime argument object handed to a generated formatter. -/
abbrev Args := List (String × String)

/-- Running one generated export, parametric in the behaviour of
the format method of IntlMessageFormat (which may throw): the missing-key body never
consults it and always returns its fixed string. -/
def runExport (fmt : Ast → Args → Except String String) :
    FormatterBody → Args → Except String String
  | FormatterBody.missingKey key, _ => Except.ok (missingKeyMessage key)
  | FormatterBody.format ast _, data => fmt ast data

/-- The content of one generated per-locale module (or of the unit
module, whose export style differs but whose content is the same shape). -/
structure LocaleModule where
  locale : String
  intlLocale : String
  languageCode : String
  countryCode : String
  exports : List (String × FormatterBody)
deriving DecidableEq

/-- writeTranslation: the per-locale module content — metadata derived
from the locale tag by splitting on the underscore and splicing into the
template, and one export per key of the data of the DEFAULT translation,
each with the body emitted for the syntax tree of this locale. -/
def writeTranslationModule (defaultTranslation translation : ParsedTranslation) :
    LocaleModule :=
  let keys := objKeys defaultTranslation.data
  { locale := translation.locale
    intlLocale := toIntlLocale translation.locale
    languageCode := jsTemplate ((jsSplit (Char.ofNat 95) translation.locale).get? 0)
    countryCode := jsTemplate ((jsSplit (Char.ofNat 95) translation.locale).get? 1)
    exports := keys.map (fun key => (key, emitBody translation.asts key)) }

/-- writeTranslationUnit: the unit module content — same metadata, one
export per key of the own data of the given translation. -/
def writeTranslationUnitModule (translation : ParsedTranslation) : LocaleModule :=
  let keys := objKeys translation.data
  { locale := translation.locale
    intlLocale := toIntlLocale translation.locale
    languageCode := jsTemplate ((jsSplit (Char.ofNat 95) translation.locale).get? 0)
    countryCode := jsTemplate ((jsSplit (Char.ofNat 95) translation.locale).get? 1)
    exports := keys.map (fun key => (key, emitBody translation.asts key)) }

/-- One entry of the declaration file: the key, its per-locale doc lines
(the raw message of every translation, undefined spliced as text when a
locale lacks the key), and the parameter emitted for it. -/
structure DeclEntry where
  key : String
  docLines : List (String × String)
  param : String
deriving DecidableEq

/-- The declaration file content. -/
structure DeclFile where
  moduleName : String
  entries : List DeclEntry
deriving DecidableEq

/-- getDocumentation for one key: one line per translation with its
locale and its raw message for the key. -/
def getDocumentationEntries (translations : List ParsedTranslation) (key : String) :
    List (String × String) :=
  translations.map (fun t => (t.locale, jsTemplate (lookupKey t.data key)))

/-- writeDeclaration: one entry per key of the default (first)
translation data; its parameter is data exactly when the default
syntax tree for the key has placeholders. The empty input
(on which the source would fail reading a property of undefined) is
unreachable from compileI18n, which errors out earlier. -/
def writeDeclarationFile (moduleName : String) (translations : List ParsedTranslation) :
    DeclFile :=
  match translations with
  | [] => ⟨moduleName, []⟩
  | defaultTranslation :: _ =>
    ⟨moduleName,
      (objKeys defaultTranslation.data).map (fun key =>
        ⟨key, getDocumentationEntries translations key,
          if hasArguments (lookupKey defaultTranslation.asts key) then "data" else ""⟩)⟩

/- The compile pipeline and its operation trace. -/

/-- A generated output file. -/
inductive GeneratedFile where
  | localeModule (m : LocaleModule)
  | unitModule (m : LocaleModule)
  | declaration (d : DeclFile)
deriving DecidableEq

/-- One filesystem operation issued by compileI18n, in issue order. -/
inductive FsOp where
  | remove (path : String)
  | write (path : String) (file : GeneratedFile)
deriving DecidableEq

/-- An operation that writes an output file. -/
def isWrite : FsOp → Bool
  | FsOp.write _ _ => true
  | FsOp.remove _ => false

/-- An operation that writes the type declaration file. -/
def isDeclWrite : FsOp → Bool
  | FsOp.write _ (GeneratedFile.declaration _) => true
  | _ => false

/-- The i18n configuration block (interface I18nConfig). -/
structure I18nConfigL where
  dir : String
  features : Option (List String)
  locales : List String
  moduleName : String
  distDir : String
deriving DecidableEq

/-- One discovered translation source (the translatedModules entries). -/
structure TranslatedModule where
  cwd : String
  dir : String
  features : List String
  localesAndLanguages : List String
deriving DecidableEq

/-- One (cwd, dir, locale, feature) read issued by compileI18n. -/
structure ReadSpec where
  cwd : String
  dir : String
  locale : String
  feature : String
deriving DecidableEq

/-- The reads pushed by the nested forEach over modules, features and
locales-and-languages. -/
def readSpecsOf (modules : List TranslatedModule) : List ReadSpec :=
  modules.flatMap (fun m =>
    m.features.flatMap (fun feature =>
      m.localesAndLanguages.map (fun loc =>
        ⟨m.cwd, m.dir, loc, feature⟩)))

/-- The source of the local project, pushed after every dependency source. -/
def localTranslatedModule (cwd : String) (i18n : I18nConfigL) : TranslatedModule :=
  ⟨cwd, i18n.dir, i18n.features.getD [""], concatLanguages i18n.locales⟩

/-- The loading, grouping, merging and parsing stages of compileI18n:
read every (module, feature, locale) file, group the results per target
locale by exact or language-fallback match, merge each group, and parse
every merged message (a parse failure aborts). The dependency discovery
(globby over package manifests) is supplied as depModules; the local
project is pushed last. -/
def pipelineParsed (fs : String → Except JsError String)
    (parseProps : String → Except JsError TranslationMap)
    (parseMessage : String → Except JsError Ast)
    (i18n : I18nConfigL) (depModules : List TranslatedModule) (cwd : String) :
    Except JsError (List ParsedTranslation) :=
  let modules := depModules ++ [localTranslatedModule cwd i18n]
  match mapE (fun s => readTranslation fs parseProps s.cwd s.dir s.locale s.feature)
      (readSpecsOf modules) with
  | Except.error e => Except.error e
  | Except.ok translations =>
    let grouped : List GroupedTranslation := i18n.locales.map (fun locale =>
      ⟨locale, translations.filter (fun t => isMatchingLocaleOrLanguage t.locale locale)⟩)
    let merged : List Translation := grouped.map (fun g => ⟨g.locale, mergeGroup g.translations⟩)
    mapE (fun t =>
      match mapE (fun kv => (parseMessage kv.2).map (fun ast => (kv.1, ast))) t.data with
      | Except.error e => Except.error e
      | Except.ok asts => Except.ok ⟨t.locale, t.data, asts⟩) merged

/-- compileI18n: run the pipeline, then issue the operation trace — the
output directory removal is awaited first, then the per-locale module
writes, then the unit module write for the first parsed translation, and
the declaration write exactly when the entryExtension of the project is not
js. An empty locale list makes the source fail before any write when the
unit writer dereferences an undefined translation; that run is modelled
as an error. -/
def compileI18n (entryExtension : String) (i18n : I18nConfigL)
    (depModules : List TranslatedModule) (cwd : String)
    (fs : String → Except JsError String)
    (parseProps : String → Except JsError TranslationMap)
    (parseMessage : String → Except JsError Ast) : Except JsError (List FsOp) :=
  match pipelineParsed fs parseProps parseMessage i18n depModules cwd with
  | Except.error e => Except.error e
  | Except.ok parsedTranslations =>
    match parsedTranslations with
    | [] => Except.error ⟨"TypeError"⟩
    | defaultTranslation :: _ =>
      Except.ok
        (FsOp.remove i18n.distDir ::
          (parsedTranslations.map (fun pt =>
            FsOp.write (joinPath [i18n.distDir, pt.locale ++ ".js"])
              (GeneratedFile.localeModule (writeTranslationModule defaultTranslation pt))) ++
          [FsOp.write (joinPath [i18n.distDir, "unit.js"])
            (GeneratedFile.unitModule (writeTranslationUnitModule defaultTranslation))] ++
          (if entryExtension ≠ "js" then
            [FsOp.write (joinPath [i18n.distDir, "index.d.ts"])
              (GeneratedFile.declaration (writeDeclarationFile i18n.moduleName parsedTranslations))]
          else [])))

/- Helper lemmas for the emission and inference theorems. -/

theorem lookupKey_keyed_map {β : Type u} (keys : List String) (g : String → β)
    (key : String) :
    lookupKey (keys.map (fun k => (k, g k))) key =
      if key ∈ keys then some (g key) else none := by
  induction keys with
  | nil => simp [lookupKey]
  | cons k₀ ks ih =>
    by_cases hk : key = k₀
    · subst hk
      simp [lookupKey]
    · simp [lookupKey, hk, ih, List.mem_cons]

theorem lookupKey_uniqByAux (l : List (String × String)) (seen : List String)
    (key : String) :
    lookupKey (uniqByAux seen l) key =
      if key ∈ seen then none else lookupKey l key := by
  induction l generalizing seen with
  | nil => simp [uniqByAux, lookupKey]
  | cons p l ih =>
    obtain ⟨k₁, v₁⟩ := p
    by_cases hs : k₁ ∈ seen
    · rw [uniqByAux, if_pos hs, ih seen]
      by_cases hk : key ∈ seen
      · simp [hk]
      · have hne : key ≠ k₁ := fun h => hk (h ▸ hs)
        simp [hk, lookupKey, hne]
    · rw [uniqByAux, if_neg hs]
      by_cases hk : key = k₁
      · subst hk
        simp [lookupKey, hs, ih]
      · rw [lookupKey, if_neg hk, ih (k₁ :: seen)]
        by_cases hk₂ : key ∈ seen
        · simp [hk₂, List.mem_cons, hk]
        · simp [hk₂, List.mem_cons, hk, lookupKey]

theorem lookupKey_element_map (l : List Element) (g : Element → String) (name : String) :
    lookupKey (l.map (fun e => (e.id, g e))) name =
      (l.find? (fun e => e.id == name)).map g := by
  induction l with
  | nil => simp [lookupKey]
  | cons e l ih =>
    by_cases hk : name = e.id
    · subst hk
      simp [lookupKey, List.find?]
    · have : (e.id == name) = false := by
        simp [hk]
        exact fun h => hk h.symm
      simp [lookupKey, hk, List.find?, this, ih]

theorem uniqByAux_map_commute (l : List Element) (seen : List String)
    (g : Element → String) :
    uniqByAux seen (l.map (fun e => (e.id, g e))) =
      (uniqElemsAux seen l).map (fun e => (e.id, g e)) := by
  induction l generalizing seen with
  | nil => simp [uniqByAux, uniqElemsAux]
  | cons e l ih =>
    by_cases hs : e.id ∈ seen
    · simp [uniqByAux, uniqElemsAux, hs, ih]
    · simp [uniqByAux, uniqElemsAux, hs, ih]

/-- C4: for every message syntax tree, getArgumentTypes renders exactly
the inference of the specification — each placeholder element mapped to number
for a plural format, to the union of quoted literal selectors with string
substituted for the other branch for a select format, and to string
otherwise, with placeholder elements de-duplicated by name before the
type list is built. -/
theorem getArgumentTypes_eq_spec (ast : Ast) :
    getArgumentTypes ast = specArgumentTypes ast := by
  unfold getArgumentTypes specArgumentTypes keyTypePairs argPairs
  rw [uniqByAux_map_commute]
  rfl

/-- An example syntax tree repeating the placeholder count with a plural
format first and a select format second. -/
def exDupAst : Ast :=
  ⟨[⟨"argumentElement", "count", some ElementFormat.pluralFormat⟩,
    ⟨"argumentElement", "count",
      some (ElementFormat.selectFormat [⟨"male"⟩, ⟨"other"⟩])⟩]⟩

/-- C9: when a placeholder name occurs more than once, the de-duplicated
key/type list resolves the name to the inferred type of its first
placeholder element in element order, and on the example tree that
repeats count with a plural format first the inferred list is exactly
count: number. -/
theorem keyTypePairs_first_occurrence (ast : Ast) (name : String) :
    lookupKey (keyTypePairs ast) name =
      ((ast.elements.filter (fun e => e.type == "argumentElement")).find?
        (fun e => e.id == name)).map argType ∧
    keyTypePairs exDupAst = [("count", "number")] := by
  constructor
  · rw [keyTypePairs, argPairs, lookupKey_uniqByAux, lookupKey_element_map]
    simp
  · rfl

/-- C2: for every key the per-locale module writer iterates (the keys of
the data of the default translation) whose syntax tree is absent for the
written locale, the emitted export is the missing-key body, and running
that body returns the fixed Missing key string for every call and every
behaviour of the message formatter — it never throws. -/
theorem missing_key_formatter (defaultTranslation translation : ParsedTranslation)
    (key : String) (hmem : key ∈ objKeys defaultTranslation.data)
    (hnone : lookupKey translation.asts key = none) :
    lookupKey (writeTranslationModule defaultTranslation translation).exports key =
      some (FormatterBody.missingKey key) ∧
    ∀ (fmt : Ast → Args → Except String String) (data : Args),
      runExport fmt (emitBody translation.asts key) data =
        Except.ok (missingKeyMessage key) := by
  have hbody : emitBody translation.asts key = FormatterBody.missingKey key := by
    simp [emitBody, hnone]
  constructor
  · rw [writeTranslationModule, lookupKey_keyed_map, if_pos hmem, hbody]
  · intro fmt data
    rw [hbody, runExport]

/-- C2 witness: a default translation with the key title and a locale
with no syntax tree for it; the emitted export is the missing-key body
and running it returns the fixed string. -/
theorem missing_key_formatter_witness :
    lookupKey (writeTranslationModule ⟨"en", [("title", "Hello")], []⟩
        ⟨"de", [], []⟩).exports "title" =
      some (FormatterBody.missingKey "title") ∧
    ∀ (fmt : Ast → Args → Except String String) (data : Args),
      runExport fmt (emitBody ([] : AstMap) "title") data =
        Except.ok (missingKeyMessage "title") :=
  missing_key_formatter ⟨"en", [("title", "Hello")], []⟩ ⟨"de", [], []⟩ "title"
    (by decide) rfl

/- Locale metadata for bare language tags. -/

theorem splitListChar_no_sep (sep : Char) (l : List Char)
    (h : ∀ c ∈ l, c ≠ sep) : splitListChar sep l = [l] := by
  induction l with
  | nil => rfl
  | cons c rest ih =>
    have hrest : splitListChar sep rest = [rest] :=
      ih (fun x hx => h x (List.mem_cons_of_mem c hx))
    have hc : c ≠ sep := h c (List.mem_cons_self c rest)
    simp [splitListChar, hrest, hc]

theorem jsSplit_no_sep (sep : Char) (s : String)
    (h : ∀ c ∈ s.toList, c ≠ sep) : jsSplit sep s = [s] := by
  rw [jsSplit, splitListChar_no_sep sep s.toList h]
  rfl

/-- C10: for a locale tag with no underscore, both the per-locale module
and the unit module export COUNTRY_CODE as the literal string undefined
(the undefined second split component spliced into the template) while
LANGUAGE_CODE is the whole tag. -/
theorem bare_language_country_code (defaultTranslation translation : ParsedTranslation)
    (h : ∀ c ∈ translation.locale.toList, c ≠ Char.ofNat 95) :
    (writeTranslationModule defaultTranslation translation).countryCode = "undefined" ∧
    (writeTranslationModule defaultTranslation translation).languageCode =
      translation.locale ∧
    (writeTranslationUnitModule translation).countryCode = "undefined" ∧
    (writeTranslationUnitModule translation).languageCode = translation.locale := by
  have hsplit : jsSplit (Char.ofNat 95) translation.locale = [translation.locale] :=
    jsSplit_no_sep _ _ h
  refine ⟨?_, ?_, ?_, ?_⟩ <;>
    simp [writeTranslationModule, writeTranslationUnitModule, hsplit, jsTemplate]

/-- C10 witness: the bare tag de. -/
theorem bare_language_country_code_witness :
    (writeTranslationModule ⟨"de", [], []⟩ ⟨"de", [], []⟩).countryCode = "undefined" ∧
    (writeTranslationModule ⟨"de", [], []⟩ ⟨"de", [], []⟩).languageCode = "de" ∧
    (writeTranslationUnitModule ⟨"de", [], []⟩).countryCode = "undefined" ∧
    (writeTranslationUnitModule ⟨"de", [], []⟩).languageCode = "de" :=
  bare_language_country_code ⟨"de", [], []⟩ ⟨"de", [], []⟩ (by decide)

/-- C3: for every loader input, a read error whose code is ENOENT (the
file does not exist) makes readTranslation return a Translation with that
locale and an empty data mapping; every other read error propagates from
readTranslation, and any read spec of a compile run whose read fails that
way makes the whole compileI18n run return an error, whatever its other
inputs. -/
theorem readTranslation_missing_vs_error
    (fs : String → Except JsError String)
    (parseProps : String → Except JsError TranslationMap)
    (cwd dir locale feature : String) (e : JsError)
    (hfs : fs (translationPath cwd dir feature locale) = Except.error e) :
    (e.code = "ENOENT" →
      readTranslation fs parseProps cwd dir locale feature =
        Except.ok ⟨locale, []⟩) ∧
    (e.code ≠ "ENOENT" →
      readTranslation fs parseProps cwd dir locale feature = Except.error e ∧
      (∀ ext i18n depModules cwdRoot parseMessage,
        (⟨cwd, dir, locale, feature⟩ : ReadSpec) ∈
            readSpecsOf (depModules ++ [localTranslatedModule cwdRoot i18n]) →
        ∃ e₂, compileI18n ext i18n depModules cwdRoot fs parseProps parseMessage =
          Except.error e₂)) := by
  constructor
  · intro hcode
    simp [readTranslation, hfs, hcode, camelCaseKeys]
  · intro hcode
    have herr : readTranslation fs parseProps cwd dir locale feature = Except.error e := by
      simp [readTranslation, hfs, hcode]
    refine ⟨herr, ?_⟩
    intro ext i18n depModules cwdRoot parseMessage hmem
    obtain ⟨e₂, h₂⟩ := mapE_error_of_mem
      (fun s : ReadSpec => readTranslation fs parseProps s.cwd s.dir s.locale s.feature)
      (readSpecsOf (depModules ++ [localTranslatedModule cwdRoot i18n]))
      ⟨cwd, dir, locale, feature⟩ e hmem herr
    exact ⟨e₂, by simp [compileI18n, pipelineParsed, h₂]⟩

/-- Example file system on which every file is missing. -/
def fsAllMissing : String → Except JsError String :=
  fun _ => Except.error ⟨"ENOENT"⟩

/-- Example file system on which every read is denied. -/
def fsDenied : String → Except JsError String :=
  fun _ => Except.error ⟨"EACCES"⟩

/-- Example properties parsing that always yields the empty object. -/
def parsePropsEmpty : String → Except JsError TranslationMap :=
  fun _ => Except.ok []

/-- Example message parsing that always yields an empty tree. -/
def parseMessageTrivial : String → Except JsError Ast :=
  fun _ => Except.ok ⟨[]⟩

/-- Example configuration: one locale, dist output directory. -/
def cfgEx : I18nConfigL :=
  ⟨"i18n", none, ["en"], "m", "dist"⟩

/-- C3 witness: the theorem applied to a missing file (the loader yields
the empty translation) and to a denied read (the loader propagates the
error and the compile run on the configuration reading that spec errors
out). -/
theorem readTranslation_missing_vs_error_witness :
    readTranslation fsAllMissing parsePropsEmpty "." "i18n" "en" "" =
      Except.ok ⟨"en", []⟩ ∧
    readTranslation fsDenied parsePropsEmpty "." "i18n" "en" "" =
      Except.error ⟨"EACCES"⟩ ∧
    ∃ e₂, compileI18n "ts" cfgEx [] "." fsDenied parsePropsEmpty parseMessageTrivial =
      Except.error e₂ :=
  ⟨(readTranslation_missing_vs_error fsAllMissing parsePropsEmpty "." "i18n" "en" ""
      ⟨"ENOENT"⟩ rfl).1 rfl,
   ((readTranslation_missing_vs_error fsDenied parsePropsEmpty "." "i18n" "en" ""
      ⟨"EACCES"⟩ rfl).2 (by decide)).1,
   ((readTranslation_missing_vs_error fsDenied parsePropsEmpty "." "i18n" "en" ""
      ⟨"EACCES"⟩ rfl).2 (by decide)).2 "ts" cfgEx [] "." parseMessageTrivial (by decide)⟩

/- Key normalisation on read. -/

theorem camelCaseKeys_foldl_keys (m : TranslationMap) (acc : TranslationMap)
    (k : String)
    (hk : k ∈ objKeys (m.foldl (fun a kv => setKey a (camelCase kv.1) kv.2) acc)) :
    k ∈ objKeys acc ∨ ∃ p, p ∈ m ∧ k = camelCase p.1 := by
  induction m generalizing acc with
  | nil => exact Or.inl hk
  | cons kv m ih =>
    have hk₂ : k ∈ objKeys ((m.foldl (fun a kv => setKey a (camelCase kv.1) kv.2)
        (setKey acc (camelCase kv.1) kv.2))) := by
      simpa using hk
    rcases ih (setKey acc (camelCase kv.1) kv.2) hk₂ with h | ⟨p, hp, hcc⟩
    · rcases objKeys_setKey_subset acc (camelCase kv.1) kv.2 k h with h₁ | h₁
      · exact Or.inr ⟨kv, by simp, h₁⟩
      · exact Or.inl h₁
    · exact Or.inr ⟨p, by simp [hp], hcc⟩

/-- C7: keys are camel-cased at read time, before any merging — a
successful read and parse yields exactly the camel-cased rebuild of the
parsed mapping; every key of that rebuild is the camelCase image of a
parsed key; and two sources spelling a key in different conventions whose
camelCase images agree collide on one single merged key during override
resolution. -/
theorem keys_camel_cased_on_read :
    (∀ (fs : String → Except JsError String)
        (parseProps : String → Except JsError TranslationMap)
        (cwd dir locale feature contents : String) (m : TranslationMap),
      fs (translationPath cwd dir feature locale) = Except.ok contents →
      parseProps contents = Except.ok m →
      readTranslation fs parseProps cwd dir locale feature =
        Except.ok ⟨locale, camelCaseKeys m⟩) ∧
    (∀ (m : TranslationMap) (k : String), k ∈ objKeys (camelCaseKeys m) →
      ∃ p, p ∈ m ∧ k = camelCase p.1) ∧
    (∀ (k₁ k₂ v₁ v₂ loc : String), camelCase k₁ = camelCase k₂ →
      objKeys (mergeGroup [⟨loc, camelCaseKeys [(k₁, v₁)]⟩,
        ⟨loc, camelCaseKeys [(k₂, v₂)]⟩]) = [camelCase k₁]) := by
  refine ⟨?_, ?_, ?_⟩
  · intro fs parseProps cwd dir locale feature contents m hfs hparse
    simp [readTranslation, hfs, hparse]
  · intro m k hk
    rcases camelCaseKeys_foldl_keys m [] k hk with h | h
    · simp [objKeys] at h
    · exact h
  · intro k₁ k₂ v₁ v₂ loc h
    have h₁ : camelCaseKeys [(k₁, v₁)] = [(camelCase k₁, v₁)] := rfl
    have h₂ : camelCaseKeys [(k₂, v₂)] = [(camelCase k₂, v₂)] := rfl
    simp [mergeGroup, assign, h₁, h₂, setKey, h, objKeys]

/-- C7 witness: a successful read of one key spelled greeting_text, the
camelCase image property on its rebuilt mapping, and the collision of
greeting_text with greetingText on the single merged key greetingText. -/
theorem keys_camel_cased_on_read_witness :
    readTranslation (fun _ => Except.ok "x")
        (fun _ => Except.ok [("greeting_text", "hi")]) "." "i18n" "en" "" =
      Except.ok ⟨"en", camelCaseKeys [("greeting_text", "hi")]⟩ ∧
    (∃ p, p ∈ [("greeting_text", "hi")] ∧ "greetingText" = camelCase p.1) ∧
    objKeys (mergeGroup [⟨"en", camelCaseKeys [("greeting_text", "hi")]⟩,
      ⟨"en", camelCaseKeys [("greetingText", "hello")]⟩]) =
      [camelCase "greeting_text"] :=
  ⟨keys_camel_cased_on_read.1 (fun _ => Except.ok "x")
      (fun _ => Except.ok [("greeting_text", "hi")]) "." "i18n" "en" "" "x"
      [("greeting_text", "hi")] rfl rfl,
   keys_camel_cased_on_read.2.1 [("greeting_text", "hi")] "greetingText" (by decide),
   keys_camel_cased_on_read.2.2 "greeting_text" "greetingText" "hi" "hello" "en"
      (by decide)⟩

/-- C5: in every successful compileI18n run, the first operation issued
is the removal of the configured output directory, and every operation
after it is an output file write — no write is issued before the removal. -/
theorem compile_remove_precedes_writes (ext : String) (i18n : I18nConfigL)
    (depModules : List TranslatedModule) (cwd : String)
    (fs : String → Except JsError String)
    (parseProps : String → Except JsError TranslationMap)
    (parseMessage : String → Except JsError Ast) (ops : List FsOp)
    (h : compileI18n ext i18n depModules cwd fs parseProps parseMessage =
      Except.ok ops) :
    ops.head? = some (FsOp.remove i18n.distDir) ∧
    ∀ op ∈ ops.tail, isWrite op = true := by
  unfold compileI18n at h
  cases hp : pipelineParsed fs parseProps parseMessage i18n depModules cwd with
  | error e => rw [hp] at h; exact absurd h (by simp)
  | ok pts =>
    rw [hp] at h
    cases pts with
    | nil => exact absurd h (by simp)
    | cons d rest =>
      simp only [Except.ok.injEq] at h
      subst h
      refine ⟨rfl, ?_⟩
      intro op hop
      simp only [List.tail_cons, List.mem_append, List.mem_map,
        List.mem_singleton] at hop
      rcases hop with (⟨pt, _, rfl⟩ | rfl) | hop
      · rfl
      · rfl
      · by_cases hext : ext ≠ "js"
        · rw [if_pos hext] at hop
          simp only [List.mem_singleton] at hop
          rw [hop]
          rfl
        · rw [if_neg hext] at hop
          cases hop

/-- The empty generated module of the example run: no keys, bare tag en. -/
def emptyEnModule : LocaleModule :=
  ⟨"en", "en", "en", "undefined", []⟩

/-- The operation trace of the example run on an all-missing file system. -/
def exOps : List FsOp :=
  [FsOp.remove "dist",
   FsOp.write "dist/en.js" (GeneratedFile.localeModule emptyEnModule),
   FsOp.write "dist/unit.js" (GeneratedFile.unitModule emptyEnModule),
   FsOp.write "dist/index.d.ts" (GeneratedFile.declaration ⟨"m", []⟩)]

/-- C5 witness: the theorem evaluated on a concrete run. -/
theorem compile_remove_precedes_writes_witness :
    exOps.head? = some (FsOp.remove cfgEx.distDir) ∧
    ∀ op ∈ exOps.tail, isWrite op = true :=
  compile_remove_precedes_writes "ts" cfgEx [] "." fsAllMissing parsePropsEmpty
    parseMessageTrivial exOps rfl

/-- C6: in every successful compileI18n run, a type declaration write
occurs in the trace exactly when the entryExtension of the project is not js;
and the declaration built from a parsed translation list lists exactly
the keys of the data of the default (first) translation. -/
theorem compile_declaration_iff (ext : String) (i18n : I18nConfigL)
    (depModules : List TranslatedModule) (cwd : String)
    (fs : String → Except JsError String)
    (parseProps : String → Except JsError TranslationMap)
    (parseMessage : String → Except JsError Ast) (ops : List FsOp)
    (h : compileI18n ext i18n depModules cwd fs parseProps parseMessage =
      Except.ok ops) :
    ((ops.any isDeclWrite = true) ↔ ext ≠ "js") ∧
    ∀ (moduleName : String) (d : ParsedTranslation) (pts : List ParsedTranslation),
      (writeDeclarationFile moduleName (d :: pts)).entries.map DeclEntry.key =
        objKeys d.data := by
  constructor
  · unfold compileI18n at h
    cases hp : pipelineParsed fs parseProps parseMessage i18n depModules cwd with
    | error e => rw [hp] at h; exact absurd h (by simp)
    | ok pts =>
      rw [hp] at h
      cases pts with
      | nil => exact absurd h (by simp)
      | cons d rest =>
        simp only [Except.ok.injEq] at h
        subst h
        by_cases hext : ext ≠ "js"
        · simp [hext, List.any_append, isDeclWrite, List.any_map, Function.comp]
        · simp [hext, List.any_append, isDeclWrite, List.any_map, Function.comp]
  · intro moduleName d pts
    simp [writeDeclarationFile, objKeys, List.map_map, Function.comp]

/-- C6 witness: the theorem evaluated on a concrete non-js run, whose
trace holds a declaration write, and on a concrete declaration whose
entries list exactly the keys of the default translation. -/
theorem compile_declaration_iff_witness :
    ((exOps.any isDeclWrite = true) ↔ "ts" ≠ "js") ∧
    (writeDeclarationFile "m" [⟨"en", [("title", "Hello")], []⟩]).entries.map
      DeclEntry.key = objKeys ([("title", "Hello")] : TranslationMap) :=
  ⟨(compile_declaration_iff "ts" cfgEx [] "." fsAllMissing parsePropsEmpty
      parseMessageTrivial exOps rfl).1,
   (compile_declaration_iff "ts" cfgEx [] "." fsAllMissing parsePropsEmpty
      parseMessageTrivial exOps rfl).2 "m" ⟨"en", [("title", "Hello")], []⟩ []⟩

/-- C8: every generated per-locale module exposes exactly the key set of
the default translation — the export keys are the data keys of the
default translation in order, a key outside them has no export even when the
written locale defines it, a default key without a syntax tree in the
written locale gets the missing-key body, and every per-locale module
written by a successful compileI18n run is built against the first parsed
translation as the default. -/
theorem locale_module_default_keys :
    (∀ defaultTranslation translation : ParsedTranslation,
      (writeTranslationModule defaultTranslation translation).exports.map Prod.fst =
        objKeys defaultTranslation.data) ∧
    (∀ (defaultTranslation translation : ParsedTranslation) (key : String),
      key ∉ objKeys defaultTranslation.data →
      lookupKey (writeTranslationModule defaultTranslation translation).exports key =
        none) ∧
    (∀ (defaultTranslation translation : ParsedTranslation) (key : String),
      key ∈ objKeys defaultTranslation.data →
      lookupKey translation.asts key = none →
      lookupKey (writeTranslationModule defaultTranslation translation).exports key =
        some (FormatterBody.missingKey key)) ∧
    (∀ (ext : String) (i18n : I18nConfigL) (depModules : List TranslatedModule)
        (cwd : String) (fs : String → Except JsError String)
        (parseProps : String → Except JsError TranslationMap)
        (parseMessage : String → Except JsError Ast) (ops : List FsOp),
      compileI18n ext i18n depModules cwd fs parseProps parseMessage =
        Except.ok ops →
      ∃ d rest, pipelineParsed fs parseProps parseMessage i18n depModules cwd =
          Except.ok (d :: rest) ∧
        ∀ (p : String) (m : LocaleModule),
          FsOp.write p (GeneratedFile.localeModule m) ∈ ops →
          ∃ pt, pt ∈ d :: rest ∧ m = writeTranslationModule d pt) := by
  refine ⟨?_, ?_, ?_, ?_⟩
  · intro d t
    simp [writeTranslationModule, List.map_map, Function.comp_def]
  · intro d t key hk
    rw [writeTranslationModule, lookupKey_keyed_map, if_neg hk]
  · intro d t key hmem hnone
    rw [writeTranslationModule, lookupKey_keyed_map, if_pos hmem]
    simp [emitBody, hnone]
  · intro ext i18n depModules cwd fs parseProps parseMessage ops h
    unfold compileI18n at h
    cases hp : pipelineParsed fs parseProps parseMessage i18n depModules cwd with
    | error e => rw [hp] at h; exact absurd h (by simp)
    | ok pts =>
      rw [hp] at h
      cases pts with
      | nil => exact absurd h (by simp)
      | cons d rest =>
        simp only [Except.ok.injEq] at h
        subst h
        refine ⟨d, rest, rfl, ?_⟩
        intro p m hm
        rcases List.mem_cons.mp hm with hm | hm
        · simp at hm
        rcases List.mem_append.mp hm with hm | hm
        · rcases List.mem_append.mp hm with hm | hm
          · rcases List.mem_map.mp hm with ⟨pt, hpt, heq⟩
            obtain ⟨-, hmod⟩ := FsOp.write.inj heq
            exact ⟨pt, hpt, (GeneratedFile.localeModule.inj hmod).symm⟩
          · have heq := List.mem_singleton.mp hm
            simp at heq
        · by_cases hext : ext ≠ "js"
          · rw [if_pos hext] at hm
            have heq := List.mem_singleton.mp hm
            simp at heq
          · rw [if_neg hext] at hm
            cases hm

/-- C8 witness: the key set, absent-key and missing-tree conjuncts on a
concrete default translation with the single key title and a locale that
lacks it, and the run conjunct on the concrete example run. -/
theorem locale_module_default_keys_witness :
    (writeTranslationModule ⟨"en", [("title", "Hello")], []⟩
      ⟨"de", [("extra", "x")], []⟩).exports.map Prod.fst =
      objKeys ([("title", "Hello")] : TranslationMap) ∧
    lookupKey (writeTranslationModule ⟨"en", [("title", "Hello")], []⟩
      ⟨"de", [("extra", "x")], []⟩).exports "extra" = none ∧
    lookupKey (writeTranslationModule ⟨"en", [("title", "Hello")], []⟩
      ⟨"de", [("extra", "x")], []⟩).exports "title" =
      some (FormatterBody.missingKey "title") ∧
    ∃ d rest, pipelineParsed fsAllMissing parsePropsEmpty parseMessageTrivial
        cfgEx [] "." = Except.ok (d :: rest) ∧
      ∀ (p : String) (m : LocaleModule),
        FsOp.write p (GeneratedFile.localeModule m) ∈ exOps →
        ∃ pt, pt ∈ d :: rest ∧ m = writeTranslationModule d pt :=
  ⟨locale_module_default_keys.1 ⟨"en", [("title", "Hello")], []⟩
      ⟨"de", [("extra", "x")], []⟩,
   locale_module_default_keys.2.1 ⟨"en", [("title", "Hello")], []⟩
      ⟨"de", [("extra", "x")], []⟩ "extra" (by decide),
   locale_module_default_keys.2.2.1 ⟨"en", [("title", "Hello")], []⟩
      ⟨"de", [("extra", "x")], []⟩ "title" (by decide) rfl,
   locale_module_default_keys.2.2.2 "ts" cfgEx [] "." fsAllMissing parsePropsEmpty
      parseMessageTrivial exOps rfl⟩
